import Mathlib

/-!
Verification of the chatbot RAG pipeline and conversation-context manager
(shallow embedding of `src/chatbot/RagHandler.py`, `src/chatbot/chat.py` and
`src/chatbot/main.py`).

Modelling conventions:
* Python dicts keyed by user/thread id become association lists
  (`List (Nat × v)`) preserving insertion order; a `defaultdict` read that
  inserts its default is modelled explicitly; `del` on a missing key is a
  `KeyError`, modelled with `Except String`.
* The vector store is a list of stored points; the similarity score a query
  assigns to a point is abstracted into a function `sim : StoredPoint → Int`
  (the query text enters the Python code only through its embedding, which
  only ever matters through the similarity ordering of the results).
* Store availability (`_check_connection`) is a boolean parameter `avail`;
  Python exception paths caught at operation boundaries make each modelled
  operation total.
* Machine floats (timestamps, scores) only ever flow through comparisons and
  copies here, so they are modelled as `Nat`/`Int`.
-/

/-- Conversation entry `{role, content}` (chat.py). -/
structure Entry where
  role : String
  content : String
deriving DecidableEq, Repr

/-- `maxHistory = 16` (chat.py line 25). -/
def maxHistory : Nat := 16

/-- `historyExpiry = 86400` (chat.py line 26). -/
def historyExpiry : Nat := 86400

/-- chat.py lines 248-250: append the composed user turn, then truncate to the
last `maxHistory` entries if the list got longer than `maxHistory`
(`conv[-maxHistory:]` keeps the most recent 16, i.e. drops from the front). -/
def appendUserTurn (hist : List Entry) (content : String) : List Entry :=
  let h := hist ++ [{ role := "user", content := content }]
  if h.length > maxHistory then h.drop (h.length - maxHistory) else h

/-- chat.py line 266: append the assistant turn; the source performs no
truncation after this append. -/
def appendAssistantTurn (hist : List Entry) (content : String) : List Entry :=
  hist ++ [{ role := "assistant", content := content }]

/-- History effect of one completed chat turn (user append at line 248,
assistant append at line 266). -/
def chatTurnHistory (hist : List Entry) (userContent assistantContent : String) : List Entry :=
  appendAssistantTurn (appendUserTurn hist userContent) assistantContent

/-- Iterate completed chat turns (each a user/assistant content pair). -/
def runTurns (turns : List (String × String)) (hist : List Entry) : List Entry :=
  match turns with
  | [] => hist
  | t :: rest => runTurns rest (chatTurnHistory hist t.1 t.2)

/-- The full append sequence generated by a list of turns, with no truncation. -/
def fullSeq : List (String × String) → List Entry
  | [] => []
  | t :: rest =>
      { role := "user", content := t.1 } :: { role := "assistant", content := t.2 } :: fullSeq rest

/-- RagHandler.py lines 94-99, `RAGHandler._get_tenant_id`.  The Python guard
is `if thread_id:`, a truthiness test: it falls to the `user_` branch both for
`None` and for the integer `0`. -/
def _get_tenant_id (user_id : Nat) (thread_id : Option Nat) : String :=
  match thread_id with
  | some t => if t ≠ 0 then "thread_" ++ toString t else "user_" ++ toString user_id
  | none => "user_" ++ toString user_id

/-- A point stored in the Qdrant collection: payload fields of
RagHandler.py lines 229-247 (the embedding vector itself is irrelevant to
every property below and is omitted). -/
structure StoredPoint where
  tenant_id : String
  filename : String
  page_number : Option Nat
  chunk_index : Nat
  content : String
  user_id : Nat
  thread_id : Option Nat
  timestamp : Nat
deriving DecidableEq, Repr

/-- Descending-similarity order used to model the order in which Qdrant
returns `query_points` results. -/
def simDesc (sim : StoredPoint → Int) (a b : StoredPoint) : Prop := sim b ≤ sim a

instance (sim : StoredPoint → Int) : DecidableRel (simDesc sim) :=
  fun a b => Int.decLe (sim b) (sim a)

instance (sim : StoredPoint → Int) : IsTotal StoredPoint (simDesc sim) :=
  ⟨fun a b => le_total (sim b) (sim a)⟩

instance (sim : StoredPoint → Int) : IsTrans StoredPoint (simDesc sim) :=
  ⟨fun _ _ _ hab hbc => le_trans hbc hab⟩

/-- Model of `client.query_points` (RagHandler.py lines 291-304): the points
matching the mandatory `tenant_id` equality filter, in descending similarity
order, capped at `limit`. -/
def queryPoints (store : List StoredPoint) (tenant : String) (sim : StoredPoint → Int)
    (limit : Nat) : List StoredPoint :=
  (((store.filter (fun p => p.tenant_id == tenant)).insertionSort (simDesc sim)).take limit)

/-- Model of `client.scroll` with the tenant filter
(RagHandler.py lines 376-388). -/
def scrollPoints (store : List StoredPoint) (tenant : String) (limit : Nat) : List StoredPoint :=
  (store.filter (fun p => p.tenant_id == tenant)).take limit

/-- One result dict built by `query_documents` (RagHandler.py lines 306-315). -/
structure ChunkResult where
  content : String
  filename : String
  page_number : Option Nat
  chunk_index : Nat
  score : Int
  timestamp : Nat
deriving DecidableEq, Repr

/-- RagHandler.py lines 307-315: project a returned point to the result dict. -/
def resultOfPoint (sim : StoredPoint → Int) (p : StoredPoint) : ChunkResult :=
  { content := p.content
    filename := p.filename
    page_number := p.page_number
    chunk_index := p.chunk_index
    score := sim p
    timestamp := p.timestamp }

/-- RagHandler.py lines 279-320, `RAGHandler.query_documents`: unavailable
store (or any caught exception) gives `[]`; otherwise the tenant-filtered
nearest points, projected to result dicts. -/
def query_documents (avail : Bool) (store : List StoredPoint) (sim : StoredPoint → Int)
    (user_id : Nat) (thread_id : Option Nat) (limit : Nat) : List ChunkResult :=
  if avail = false then []
  else (queryPoints store (_get_tenant_id user_id thread_id) sim limit).map (resultOfPoint sim)

/-- RagHandler.py line 341: `f" page {page_num}" if page_num else ""` — a
truthiness test, so both `None` and `0` give the empty label. -/
def pageLabel : Option Nat → String
  | some n => if n ≠ 0 then " page " ++ toString n else ""
  | none => ""

/-- String rendering of the page number as interpolated into the dedup key
(`None` for a missing page, decimal digits otherwise). -/
def pageStr : Option Nat → String
  | some n => toString n
  | none => "None"

/-- RagHandler.py line 344: `page_key = f"{filename}_{page_num}"`. -/
def pageKey (r : ChunkResult) : String := r.filename ++ "_" ++ pageStr r.page_number

/-- RagHandler.py lines 340-349: the formatted chunk
`[filename pageN]\ncontent\n\n`. -/
def formatChunk (r : ChunkResult) : String :=
  "[" ++ r.filename ++ pageLabel r.page_number ++ "]\n" ++ r.content ++ "\n\n"

/-- RagHandler.py lines 333-355, the assembly loop of `get_context_for_query`:
walk the results, skip a chunk whose `(filename, page)` key was already seen,
stop (`break`) at the first chunk whose formatted text would push the
accumulated length over `max_context_length`. -/
def assembleParts (maxLen : Nat) : List ChunkResult → List String → Nat → List String
  | [], _, _ => []
  | r :: rest, seen, cur =>
    if pageKey r ∈ seen then assembleParts maxLen rest seen cur
    else
      let txt := formatChunk r
      if cur + txt.length > maxLen then []
      else txt :: assembleParts maxLen rest (pageKey r :: seen) (cur + txt.length)

/-- RagHandler.py line 358 header prepended to the assembled parts. -/
def ctxHeader : String := "RELEVANT DOCUMENT CONTEXT:\n"

/-- RagHandler.py lines 359-360 trailing instruction appended after the parts. -/
def ctxFooter : String :=
  "Use the above document context when relevant to answer the user\x27s questions. For unrelated questions, do not mention that they are unrelated—just respond normally.\n\n"

/-- RagHandler.py lines 322-363, `RAGHandler.get_context_for_query`. -/
def get_context_for_query (avail : Bool) (store : List StoredPoint) (sim : StoredPoint → Int)
    (user_id : Nat) (thread_id : Option Nat) (maxLen : Nat) : String :=
  if avail = false then ""
  else
    let results := query_documents avail store sim user_id thread_id 15
    if results.isEmpty then ""
    else
      let parts := assembleParts maxLen results [] 0
      if parts.isEmpty then "" else ctxHeader ++ String.join parts ++ ctxFooter

/-- Specification-side companion of the assembly loop: the result list with
every later repetition of an already-seen `(filename, page)` key removed
(first occurrence wins). -/
def dedupByKey : List ChunkResult → List String → List ChunkResult
  | [], _ => []
  | r :: rest, seen =>
    if pageKey r ∈ seen then dedupByKey rest seen
    else r :: dedupByKey rest (pageKey r :: seen)

/-- Specification-side companion of the assembly loop: greedily take chunks
from an (already deduplicated) list while the accumulated formatted length
stays within the budget, stopping at the first chunk that would overflow. -/
def takeGreedy (maxLen : Nat) : Nat → List ChunkResult → List ChunkResult
  | _, [] => []
  | cur, r :: rest =>
    if cur + (formatChunk r).length > maxLen then []
    else r :: takeGreedy maxLen (cur + (formatChunk r).length) rest

/-- Total formatted length of a list of parts. -/
def sumLen (l : List String) : Nat := (l.map String.length).sum

/-- An uploaded file handle as the ingestion pipeline sees it: `filename`,
`size` in bytes, and the saved contents viewed both as text (what the `.txt`
branch reads) and as per-page extracted PDF text (what the `.pdf` branch
produces; `none` marks a page whose `extract_text` raised and was skipped). -/
structure FileAttachment where
  filename : String
  size : Nat
  text : String
  pages : List (Option String)
deriving DecidableEq, Repr

/-- A langchain `Document`: page content plus the metadata the code sets
(filename, optional page number). -/
structure Doc where
  content : String
  filename : String
  page_number : Option Nat
deriving DecidableEq, Repr

/-- Python `str.strip()` (with no argument): remove leading and trailing
whitespace.  Implemented over the character list so that it reduces inside
the kernel. -/
def pyStrip (s : String) : String :=
  String.mk (((s.data.dropWhile Char.isWhitespace).reverse.dropWhile Char.isWhitespace).reverse)

/-- Python `str.endswith(suffix)`, over the character lists. -/
def strEndsWith (s suffix : String) : Bool := suffix.data.isSuffixOf s.data

/-- RagHandler.py lines 181-204 (both the streaming and the non-streaming PDF
branch build the same list): one `Document` per page whose extracted text is
non-empty after stripping (`if page_text and page_text.strip():`), numbered
from 1; failed pages are skipped. -/
def extractPdfDocs (filename : String) (pages : List (Option String)) : List Doc :=
  pages.enum.filterMap (fun ip =>
    match ip.2 with
    | some t => if pyStrip t = "" then none else some { content := t, filename := filename, page_number := some (ip.1 + 1) }
    | none => none)

/-- Cut a character list into windows of at most 1000 characters (the
splitter window size used at RagHandler.py lines 24-28). -/
def chopChars (l : List Char) : List (List Char) :=
  if l.length ≤ 1000 then [l]
  else l.take 1000 :: chopChars (l.drop 800)
termination_by l.length
decreasing_by
  simp only [List.length_drop]
  omega

/-- Model of langchain `RecursiveCharacterTextSplitter.split_text` with
`chunk_size=1000`, `chunk_overlap=200`, `length_function=len` (third-party
library code, modelled at the precision the properties below need): chunks
are stripped of surrounding whitespace and empty chunks are dropped, so
whitespace-only text yields zero chunks; text whose stripped form fits in one
window is a single chunk; longer text is cut into bounded windows.  The exact
separator-recursion and overlap merging only move interior chunk boundaries,
which no property below inspects. -/
def splitText (s : String) : List String :=
  let t := pyStrip s
  if t = "" then [] else (chopChars t.data).map (fun cs => String.mk cs)

/-- RagHandler.py lines 211-217: split every extracted document, keeping its
metadata on each chunk, concatenated in document order. -/
def splitDocs (docs : List Doc) : List Doc :=
  docs.flatMap (fun d =>
    (splitText d.content).map (fun t =>
      { content := t, filename := d.filename, page_number := d.page_number }))

/-- Outcome of `process_and_store_file`: the error dict or the success dict
(RagHandler.py lines 257-263). -/
inductive IngestResult where
  | err (msg : String)
  | ok (filename : String) (chunks_stored : Nat) (pages_processed : Nat) (tenant_id : String)
deriving DecidableEq, Repr

/-- RagHandler.py line 163. -/
def unavailableMsg : String := "RAG system is not available. Please ensure Qdrant is running."

/-- RagHandler.py line 168. -/
def sizeErrorMsg : String := "File too large. Maximum size is 10MB."

/-- RagHandler.py line 209. -/
def noTextMsg : String := "No text content found in the file."

/-- RagHandler.py line 220. -/
def noChunksMsg : String := "No content chunks generated from the file."

/-- RagHandler.py line 206. -/
def unsupportedMsg (filename : String) : String :=
  "Unsupported file type: " ++ filename ++ ". Supported types: .txt, .pdf"

/-- RagHandler.py lines 229-247: the points built for the chunks, with the
tenant id and the rest of the payload attached; `chunk_index` increments
across the whole document. -/
def mkPoints (tenant : String) (user_id : Nat) (thread_id : Option Nat) (now : Nat)
    (chunks : List Doc) : List StoredPoint :=
  chunks.enum.map (fun ic =>
    { tenant_id := tenant
      filename := ic.2.filename
      page_number := ic.2.page_number
      chunk_index := ic.1
      content := ic.2.content
      user_id := user_id
      thread_id := thread_id
      timestamp := now })

/-- RagHandler.py lines 208-263, the tail of `process_and_store_file` shared
by the `.txt` and `.pdf` branches: empty-documents check, chunking,
empty-chunks check, tenant resolution, point construction, batched upsert
(the upserted points are returned as the second component; the batching only
changes call granularity, every point is stored), success dict. -/
def storeDocs (filename : String) (documents : List Doc) (user_id : Nat)
    (thread_id : Option Nat) (now : Nat) : IngestResult × List StoredPoint :=
  if documents.isEmpty then (.err noTextMsg, [])
  else
    let chunks := splitDocs documents
    if chunks.isEmpty then (.err noChunksMsg, [])
    else
      let tenant := _get_tenant_id user_id thread_id
      let points := mkPoints tenant user_id thread_id now chunks
      (.ok filename chunks.length documents.length tenant, points)

/-- RagHandler.py lines 160-277, `RAGHandler.process_and_store_file`:
connection check, size ceiling, extension dispatch
(`.txt` reads the whole text and keeps it only if non-empty — `if text:`;
`.pdf` extracts per page; anything else is rejected), then the shared tail. -/
def process_and_store_file (avail : Bool) (att : FileAttachment) (user_id : Nat)
    (thread_id : Option Nat) (now : Nat) : IngestResult × List StoredPoint :=
  if avail = false then (.err unavailableMsg, [])
  else if 10 * 1024 * 1024 < att.size then (.err sizeErrorMsg, [])
  else if strEndsWith att.filename ".txt" then
    storeDocs att.filename
      (if att.text = "" then []
       else [{ content := att.text, filename := att.filename, page_number := none }])
      user_id thread_id now
  else if strEndsWith att.filename ".pdf" then
    storeDocs att.filename (extractPdfDocs att.filename att.pages) user_id thread_id now
  else (.err (unsupportedMsg att.filename), [])

/-- One entry of the `/docs_list` answer (RagHandler.py lines 404-411). -/
structure FileInfo where
  filename : String
  chunks : Nat
  pages : Nat
  timestamp : Nat
deriving DecidableEq, Repr

/-- Python `set.add` on the per-file page set, modelled as an append-if-new
list (only its size is ever read). -/
def insertPage (l : List Nat) (n : Nat) : List Nat := if n ∈ l then l else l ++ [n]

/-- In-progress aggregation record for one filename
(RagHandler.py lines 390-402). -/
structure FileAgg where
  filename : String
  chunks : Nat
  pages : List Nat
  timestamp : Nat
deriving DecidableEq, Repr

/-- RagHandler.py lines 390-402: fold the scrolled points into a dict keyed by
filename (insertion order preserved); a file record is created with the first
point seen and its timestamp, every point bumps the chunk count, truthy page
numbers (`if point.payload.get("page_number"):`, so neither `None` nor `0`)
join the page set. -/
def collectFiles : List StoredPoint → List FileAgg → List FileAgg
  | [], acc => acc
  | p :: rest, acc =>
    let acc1 :=
      if acc.any (fun f => f.filename == p.filename) then acc
      else acc ++ [{ filename := p.filename, chunks := 0, pages := [], timestamp := p.timestamp }]
    let acc2 := acc1.map (fun f =>
      if f.filename == p.filename then
        { f with
            chunks := f.chunks + 1
            pages := match p.page_number with
                     | some n => if n ≠ 0 then insertPage f.pages n else f.pages
                     | none => f.pages }
      else f)
    collectFiles rest acc2

/-- RagHandler.py lines 368-416, `RAGHandler.list_stored_files`: empty list
when the store is unavailable (or on exception), otherwise the per-file
aggregates of a tenant-filtered scroll capped at 1000 points
(`len(pages) if pages else 0` equals the set size in both cases). -/
def list_stored_files (avail : Bool) (store : List StoredPoint) (user_id : Nat)
    (thread_id : Option Nat) : List FileInfo :=
  if avail = false then []
  else
    (collectFiles (scrollPoints store (_get_tenant_id user_id thread_id) 1000) []).map
      (fun f => { filename := f.filename, chunks := f.chunks, pages := f.pages.length, timestamp := f.timestamp })

/-- RagHandler.py lines 418-443, `RAGHandler.delete_tenant_data`: `false` and
no store change when unavailable, else delete every point of the tenant and
return `true`.  The second component is the store after the call. -/
def delete_tenant_data (avail : Bool) (store : List StoredPoint) (user_id : Nat)
    (thread_id : Option Nat) : Bool × List StoredPoint :=
  if avail = false then (false, store)
  else (true, store.filter (fun p => !(p.tenant_id == _get_tenant_id user_id thread_id)))

/-- RagHandler.py lines 445-474, `RAGHandler.delete_file`: like
`delete_tenant_data` but additionally filtered by filename. -/
def delete_file (avail : Bool) (store : List StoredPoint) (filename : String) (user_id : Nat)
    (thread_id : Option Nat) : Bool × List StoredPoint :=
  if avail = false then (false, store)
  else
    (true, store.filter (fun p =>
      !(p.tenant_id == _get_tenant_id user_id thread_id && p.filename == filename)))

/-- The value type of `imageContexts` (a dict describing the uploaded image);
its contents are never inspected by the code modelled here. -/
abbrev ImageData := List (String × String)

/-- Lookup in an insertion-ordered association list (Python `d[k]` when the
key is known to exist / `k in d` membership). -/
def alookup {α : Type} : List (Nat × α) → Nat → Option α
  | [], _ => none
  | e :: m, k => if e.1 = k then some e.2 else alookup m k

/-- Python `d[k] = v`: replace in place if present, append otherwise
(dicts preserve insertion order). -/
def aset {α : Type} (m : List (Nat × α)) (k : Nat) (v : α) : List (Nat × α) :=
  if (alookup m k).isSome then m.map (fun e => if e.1 == k then (k, v) else e)
  else m ++ [(k, v)]

/-- Python `del d[k]`: removes the key, raising `KeyError` when absent (also
on a `defaultdict` — the default factory is not consulted by deletion). -/
def adel {α : Type} (m : List (Nat × α)) (k : Nat) : Except String (List (Nat × α)) :=
  if (alookup m k).isSome then .ok (m.filter (fun e => !(e.1 == k)))
  else .error ("KeyError: " ++ toString k)

/-- Python `defaultdict` read `d[k]`: returns the stored value, or inserts and
returns the default; the possibly-grown map is returned alongside. -/
def agetd {α : Type} (m : List (Nat × α)) (k : Nat) (d : α) : List (Nat × α) × α :=
  match alookup m k with
  | some v => (m, v)
  | none => (m ++ [(k, d)], d)

/-- One family of per-tenant context maps (chat.py lines 13-17 for the user
family, lines 19-23 for the thread family — both have this shape). -/
structure CtxMaps where
  conversations : List (Nat × List Entry)
  fileContexts : List (Nat × String)
  imageContexts : List (Nat × ImageData)
  imageDescriptions : List (Nat × String)
  lastInteraction : List (Nat × Nat)
deriving DecidableEq, Repr

/-- The prune body for one id (chat.py lines 31-37 / 39-45): reading
`lastInteraction[userId]` is a `defaultdict` access (it inserts `0.0` when
absent), then, if the timestamp is stale, five `del` statements run in
source order, each able to raise `KeyError`. -/
def pruneStep (now : Nat) (s : CtxMaps) (uid : Nat) : Except String CtxMaps :=
  let li := agetd s.lastInteraction uid 0
  if now - li.2 > historyExpiry then do
    let c ← adel s.conversations uid
    let f ← adel s.fileContexts uid
    let im ← adel s.imageContexts uid
    let d ← adel s.imageDescriptions uid
    let l ← adel li.1 uid
    .ok { conversations := c, fileContexts := f, imageContexts := im,
          imageDescriptions := d, lastInteraction := l }
  else .ok { s with lastInteraction := li.1 }

/-- Fold the prune body over a snapshot of keys (`list(conversations.keys())`);
an uncaught `KeyError` aborts the whole sweep. -/
def pruneUsers (now : Nat) : List Nat → CtxMaps → Except String CtxMaps
  | [], s => .ok s
  | k :: rest, s =>
    match pruneStep now s k with
    | .error e => .error e
    | .ok s2 => pruneUsers now rest s2

/-- chat.py lines 28-45, `pruneOldConversations`: sweep the user-keyed family,
then the thread-keyed family, each over a snapshot of its conversation keys. -/
def pruneOldConversations (now : Nat) (userMaps threadMaps : CtxMaps) :
    Except String (CtxMaps × CtxMaps) := do
  let u ← pruneUsers now (userMaps.conversations.map (fun e => e.1)) userMaps
  let t ← pruneUsers now (threadMaps.conversations.map (fun e => e.1)) threadMaps
  .ok (u, t)

/-- Map effects of one completed text-only chat turn in `handleChat`
(no attachments, no matched ancillary function): the timestamp write at
line 129, the `defaultdict` reads of `file_dict[contextId]` (line 219) and
`desc_dict[contextId]` (line 222) which insert empty defaults, the user-turn
append with truncation (lines 248-250) and the assistant-turn append
(line 266).  `imageContexts` is never read or written on this path. -/
def textTurn (s : CtxMaps) (uid : Nat) (now : Nat) (userContent assistantContent : String) :
    CtxMaps :=
  let s1 := { s with lastInteraction := aset s.lastInteraction uid now }
  let s2 := { s1 with fileContexts := (agetd s1.fileContexts uid "").1 }
  let s3 := { s2 with imageDescriptions := (agetd s2.imageDescriptions uid "").1 }
  let cv := agetd s3.conversations uid []
  let h1 := appendUserTurn cv.2 userContent
  let s4 := { s3 with conversations := aset cv.1 uid h1 }
  let h2 := appendAssistantTurn h1 assistantContent
  { s4 with conversations := aset s4.conversations uid h2 }

/-- The empty context-map family (process start). -/
def emptyMaps : CtxMaps :=
  { conversations := [], fileContexts := [], imageContexts := [],
    imageDescriptions := [], lastInteraction := [] }

/-- main.py lines 38-41, the per-user part of `SlashCommands.reset`: assign
empty values to the four context maps for the user; `lastInteraction` is not
touched. -/
def resetCmd (s : CtxMaps) (uid : Nat) : CtxMaps :=
  { s with
      conversations := aset s.conversations uid []
      fileContexts := aset s.fileContexts uid ""
      imageContexts := aset s.imageContexts uid []
      imageDescriptions := aset s.imageDescriptions uid "" }

/-- Answer of the `/history` command (main.py lines 85-93). -/
inductive HistoryReport where
  | personal (messageCount : Nat) (hasFile : Bool) (hasImage : Bool)
  | noHistory
deriving DecidableEq, Repr

/-- main.py lines 85-93, the personal branch of `SlashCommands.history`:
`userId in conversations` is a plain membership test (no insertion); the
subsequent `fileContexts[userId]` and `imageDescriptions[userId]` reads are
`defaultdict` accesses (they insert empty defaults when absent); the file and
image flags are Python truthiness of the stored strings. -/
def historyCmd (s : CtxMaps) (uid : Nat) : HistoryReport × CtxMaps :=
  match alookup s.conversations uid with
  | some conv =>
      let f := agetd s.fileContexts uid ""
      let d := agetd ({ s with fileContexts := f.1 }).imageDescriptions uid ""
      (.personal conv.length (f.2 != "") (d.2 != ""),
       { s with fileContexts := f.1, imageDescriptions := d.1 })
  | none => (.noHistory, s)

/-! ### Helper lemmas about the ingestion pipeline and the stores -/

theorem mem_mkPoints_tenant {tenant : String} {uid : Nat} {tid : Option Nat} {now : Nat}
    {chunks : List Doc} {p : StoredPoint} (hp : p ∈ mkPoints tenant uid tid now chunks) :
    p.tenant_id = tenant := by
  unfold mkPoints at hp
  obtain ⟨ic, _, rfl⟩ := List.mem_map.mp hp
  rfl

theorem mem_storeDocs_tenant {fn : String} {documents : List Doc} {uid : Nat}
    {tid : Option Nat} {now : Nat} {p : StoredPoint}
    (hp : p ∈ (storeDocs fn documents uid tid now).2) :
    p.tenant_id = _get_tenant_id uid tid := by
  simp only [storeDocs] at hp
  split at hp
  · cases hp
  · split at hp
    · cases hp
    · exact mem_mkPoints_tenant hp

theorem ingest_tenant {avail : Bool} {att : FileAttachment} {uid : Nat} {tid : Option Nat}
    {now : Nat} {p : StoredPoint} (hp : p ∈ (process_and_store_file avail att uid tid now).2) :
    p.tenant_id = _get_tenant_id uid tid := by
  unfold process_and_store_file at hp
  split at hp
  · cases hp
  · split at hp
    · cases hp
    · split at hp
      · exact mem_storeDocs_tenant hp
      · split at hp
        · exact mem_storeDocs_tenant hp
        · cases hp

theorem filter_tenant_eq_nil {l : List StoredPoint} {t1 t2 : String}
    (hall : ∀ p ∈ l, p.tenant_id = t1) (hne : t1 ≠ t2) :
    l.filter (fun p => p.tenant_id == t2) = [] := by
  rw [List.filter_eq_nil_iff]
  intro p hp
  rw [hall p hp]
  simp [hne]

/-- C5: with the vector store unavailable at call time, every RAG-facing
operation returns its defined empty/unavailable result — the error record for
ingestion, the empty list for query and file listing, the empty string for
context assembly, `false` (and an untouched store) for both delete
operations.  Each modelled operation is a total function, reflecting the
catch-all exception handlers at the operation boundaries in the source. -/
theorem c5_unavailable_defaults (store : List StoredPoint) (sim : StoredPoint → Int)
    (att : FileAttachment) (uid : Nat) (tid : Option Nat) (now limit maxLen : Nat)
    (fn : String) :
    process_and_store_file false att uid tid now = (.err unavailableMsg, [])
    ∧ query_documents false store sim uid tid limit = []
    ∧ get_context_for_query false store sim uid tid maxLen = ""
    ∧ list_stored_files false store uid tid = []
    ∧ delete_tenant_data false store uid tid = (false, store)
    ∧ delete_file false store fn uid tid = (false, store) :=
  ⟨rfl, rfl, rfl, rfl, rfl, rfl⟩

theorem process_size_err (att : FileAttachment) (uid : Nat) (tid : Option Nat) (now : Nat)
    (hsize : 10 * 1024 * 1024 < att.size) :
    process_and_store_file true att uid tid now = (.err sizeErrorMsg, []) := by
  unfold process_and_store_file
  rw [if_neg (fun h => Bool.noConfusion h), if_pos hsize]

theorem process_txt_eq (att : FileAttachment) (uid : Nat) (tid : Option Nat) (now : Nat)
    (hsize : ¬ 10 * 1024 * 1024 < att.size) (hext : strEndsWith att.filename ".txt" = true) :
    process_and_store_file true att uid tid now
      = storeDocs att.filename
          (if att.text = "" then []
           else [{ content := att.text, filename := att.filename, page_number := none }])
          uid tid now := by
  unfold process_and_store_file
  rw [if_neg (fun h => Bool.noConfusion h), if_neg hsize, if_pos hext]

/-- C3: a file whose size exceeds 10 MiB never causes an upsert (no point is
ever stored for that job), and — when the store is available, so that the
preceding liveness check passes — the operation returns exactly the size
error; the outcome is independent of the file contents, witnessing that the
rejection happens before any processing. -/
theorem c3_size_rejected (avail : Bool) (att : FileAttachment) (uid : Nat) (tid : Option Nat)
    (now : Nat) (hsize : 10 * 1024 * 1024 < att.size) :
    (process_and_store_file avail att uid tid now).2 = []
    ∧ (avail = true → process_and_store_file avail att uid tid now = (.err sizeErrorMsg, []))
    ∧ process_and_store_file avail att uid tid now
        = process_and_store_file avail { att with text := "", pages := [] } uid tid now := by
  cases avail
  · exact ⟨rfl, fun h => Bool.noConfusion h, rfl⟩
  · have h1 : process_and_store_file true att uid tid now = (.err sizeErrorMsg, []) :=
      process_size_err att uid tid now hsize
    have h2 : process_and_store_file true { att with text := "", pages := [] } uid tid now
        = (.err sizeErrorMsg, []) := process_size_err _ uid tid now hsize
    exact ⟨by rw [h1], fun _ => h1, by rw [h1, h2]⟩

/-- A concrete oversized upload: 10 MiB + 1 byte. -/
def bigTxt : FileAttachment := { filename := "big.txt", size := 10485761, text := "x", pages := [] }

/-- Witness for C3 at the concrete oversized file `bigTxt`. -/
theorem c3_size_rejected_witness :
    (process_and_store_file true bigTxt 1 none 0).2 = []
    ∧ (true = true → process_and_store_file true bigTxt 1 none 0 = (.err sizeErrorMsg, []))
    ∧ process_and_store_file true bigTxt 1 none 0
        = process_and_store_file true { bigTxt with text := "", pages := [] } 1 none 0 :=
  c3_size_rejected true bigTxt 1 none 0 (by decide)

/-- C7: ingesting a `.txt` file whose contents are empty or whitespace-only
(within the size ceiling) stores nothing, and — when the store is available —
fails with the empty-content error: the extraction-level message for a
zero-byte file (`if text:` keeps no document), the chunking-level message for
a whitespace-only file (the splitter strips chunks and drops empty ones, so
zero chunks are generated). -/
theorem c7_blank_txt (avail : Bool) (att : FileAttachment) (uid : Nat) (tid : Option Nat)
    (now : Nat) (hext : strEndsWith att.filename ".txt" = true)
    (hsize : att.size ≤ 10 * 1024 * 1024) (hblank : pyStrip att.text = "") :
    (process_and_store_file avail att uid tid now).2 = []
    ∧ (avail = true →
        process_and_store_file avail att uid tid now
          = (.err (if att.text = "" then noTextMsg else noChunksMsg), [])) := by
  have hns : ¬ (10 * 1024 * 1024 < att.size) := not_lt.mpr hsize
  cases avail
  · exact ⟨rfl, fun h => Bool.noConfusion h⟩
  · have heq := process_txt_eq att uid tid now hns hext
    by_cases htext : att.text = ""
    · rw [if_pos htext] at heq
      have : storeDocs att.filename [] uid tid now = (.err noTextMsg, []) := rfl
      rw [this] at heq
      exact ⟨by rw [heq], fun _ => by rw [heq, if_pos htext]⟩
    · rw [if_neg htext] at heq
      have hchunks :
          splitDocs [{ content := att.text, filename := att.filename, page_number := none }] = [] := by
        simp [splitDocs, splitText, hblank]
      have hsd : storeDocs att.filename
          [{ content := att.text, filename := att.filename, page_number := none }] uid tid now
          = (.err noChunksMsg, []) := by
        simp [storeDocs, hchunks]
      rw [hsd] at heq
      exact ⟨by rw [heq], fun _ => by rw [heq, if_neg htext]⟩

/-- A concrete whitespace-only text upload. -/
def blankTxt : FileAttachment := { filename := "notes.txt", size := 3, text := "  \n", pages := [] }

/-- Witness for C7 at the concrete whitespace-only file `blankTxt`. -/
theorem c7_blank_txt_witness :
    (process_and_store_file true blankTxt 1 none 0).2 = []
    ∧ (true = true →
        process_and_store_file true blankTxt 1 none 0
          = (.err (if blankTxt.text = "" then noTextMsg else noChunksMsg), [])) :=
  c7_blank_txt true blankTxt 1 none 0 (by decide) (by decide) (by decide)

/-- C8 counterexample: a supplied thread id of `0` is falsy in Python, so
`_get_tenant_id` returns the `user_` tenant, not `"thread_0"` — refuting
"the tenant id is `thread_` + threadId whenever a thread id is supplied" at
the concrete input (userId 7, threadId 0). -/
theorem c8_counterexample :
    _get_tenant_id 7 (some 0) = "user_7" ∧ _get_tenant_id 7 (some 0) ≠ "thread_0" := by
  exact ⟨rfl, by decide⟩

/-- C8 (amended): the tenant id is `thread_` + threadId whenever a *nonzero*
thread id is supplied (a supplied thread id of `0` is treated like an absent
one by the truthiness guard), and `user_` + userId otherwise; the derivation
is a pure function of its two arguments, and it is the tenant value attached
to every stored point and the tenant value every read filters on. -/
theorem c8_amended (u t : Nat) (tid : Option Nat) (avail : Bool) (store : List StoredPoint)
    (sim : StoredPoint → Int) (att : FileAttachment) (now limit : Nat) :
    _get_tenant_id u (some t)
        = (if t ≠ 0 then "thread_" ++ toString t else "user_" ++ toString u)
    ∧ _get_tenant_id u none = "user_" ++ toString u
    ∧ (∀ p ∈ (process_and_store_file avail att u tid now).2, p.tenant_id = _get_tenant_id u tid)
    ∧ query_documents true store sim u tid limit
        = (queryPoints store (_get_tenant_id u tid) sim limit).map (resultOfPoint sim)
    ∧ scrollPoints store (_get_tenant_id u tid) limit
        = (store.filter (fun p => p.tenant_id == _get_tenant_id u tid)).take limit :=
  ⟨rfl, rfl, fun _ hp => ingest_tenant hp, rfl, rfl⟩

/-- Witness for C8 (amended) at userId 3, threadId 9, a concrete store and
attachment. -/
theorem c8_amended_witness :
    _get_tenant_id 3 (some 9)
        = (if 9 ≠ 0 then "thread_" ++ toString 9 else "user_" ++ toString 3)
    ∧ _get_tenant_id 3 none = "user_" ++ toString 3
    ∧ (∀ p ∈ (process_and_store_file true bigTxt 3 (some 9) 0).2,
        p.tenant_id = _get_tenant_id 3 (some 9))
    ∧ query_documents true [] (fun _ => 0) 3 (some 9) 5
        = (queryPoints [] (_get_tenant_id 3 (some 9)) (fun _ => 0) 5).map (resultOfPoint (fun _ => 0))
    ∧ scrollPoints [] (_get_tenant_id 3 (some 9)) 5
        = (List.filter (fun p => p.tenant_id == _get_tenant_id 3 (some 9)) []).take 5 :=
  c8_amended 3 9 (some 9) true [] (fun _ => 0) bigTxt 0 5

/-- Context-map state after one completed text-only chat turn of user 1 at
time 0: `conversations`, `fileContexts`, `imageDescriptions` and
`lastInteraction` hold an entry for the user, `imageContexts` does not. -/
def c6State : CtxMaps := textTurn emptyMaps 1 0 "hello" "hi"

/-- C6 (code bug): the eviction sweep is supposed to remove the whole
bundle of a stale tenant, but for a tenant who only ever completed text-only turns the
`imageContexts` map has no entry for the key, so the third `del` of the sweep
raises `KeyError` — the sweep aborts with `conversations` and `fileContexts`
deleted and `imageDescriptions` and `lastInteraction` still present, instead
of removing the whole bundle. -/
theorem c6_sweep_keyerror :
    (alookup c6State.conversations 1).isSome = true
    ∧ alookup c6State.imageContexts 1 = none
    ∧ alookup c6State.lastInteraction 1 = some 0
    ∧ 100000 - 0 > historyExpiry
    ∧ pruneOldConversations 100000 c6State emptyMaps = .error "KeyError: 1" :=
  ⟨by decide, by decide, by decide, by decide, by rfl⟩

/-! ### Helper lemmas about the association-list model of the context maps -/

theorem alookup_append_right {α : Type} {m : List (Nat × α)} {k : Nat}
    (h : alookup m k = none) (v : α) : alookup (m ++ [(k, v)]) k = some v := by
  induction m with
  | nil => simp [alookup]
  | cons e m ih =>
    rw [alookup] at h
    by_cases he : e.1 = k
    · rw [if_pos he] at h
      cases h
    · rw [if_neg he] at h
      rw [List.cons_append, alookup, if_neg he]
      exact ih h

theorem alookup_replace {α : Type} {m : List (Nat × α)} {k : Nat} (v : α)
    (h : (alookup m k).isSome = true) :
    alookup (m.map (fun e => if e.1 == k then (k, v) else e)) k = some v := by
  induction m with
  | nil => simp [alookup] at h
  | cons e m ih =>
    by_cases he : e.1 = k
    · simp [alookup, he]
    · rw [alookup, if_neg he] at h
      have hbeq : (e.1 == k) = false := by simp [he]
      simp only [List.map_cons, hbeq, Bool.false_eq_true, if_false]
      rw [alookup, if_neg he]
      exact ih h

theorem alookup_aset_self {α : Type} (m : List (Nat × α)) (k : Nat) (v : α) :
    alookup (aset m k v) k = some v := by
  unfold aset
  by_cases h : (alookup m k).isSome
  · rw [if_pos h]
    exact alookup_replace v h
  · rw [if_neg h]
    exact alookup_append_right (Option.not_isSome_iff_eq_none.mp h) v

theorem alookup_filter_self {α : Type} (m : List (Nat × α)) (k : Nat) :
    alookup (m.filter (fun e => !(e.1 == k))) k = none := by
  induction m with
  | nil => rfl
  | cons e m ih =>
    by_cases he : e.1 = k
    · simpa [List.filter_cons, he] using ih
    · have hbeq : (e.1 == k) = false := by simp [he]
      simpa [List.filter_cons, hbeq, alookup, he] using ih

theorem adel_of_isSome {α : Type} {m : List (Nat × α)} {k : Nat}
    (h : (alookup m k).isSome = true) :
    adel m k = .ok (m.filter (fun e => !(e.1 == k))) := by
  unfold adel
  rw [if_pos h]

theorem agetd_aset {α : Type} (m : List (Nat × α)) (k : Nat) (v d : α) :
    agetd (aset m k v) k d = (aset m k v, v) := by
  unfold agetd
  rw [alookup_aset_self]

/-- If the tenant has every key present and a stale timestamp, the prune body
deletes its entry from all five maps. -/
theorem pruneStep_all_present {now : Nat} {s : CtxMaps} {uid : Nat}
    (hc : (alookup s.conversations uid).isSome = true)
    (hf : (alookup s.fileContexts uid).isSome = true)
    (him : (alookup s.imageContexts uid).isSome = true)
    (hd : (alookup s.imageDescriptions uid).isSome = true)
    (hstale : now - ((alookup s.lastInteraction uid).getD 0) > historyExpiry) :
    pruneStep now s uid = .ok
      { conversations := s.conversations.filter (fun e => !(e.1 == uid))
        fileContexts := s.fileContexts.filter (fun e => !(e.1 == uid))
        imageContexts := s.imageContexts.filter (fun e => !(e.1 == uid))
        imageDescriptions := s.imageDescriptions.filter (fun e => !(e.1 == uid))
        lastInteraction := (agetd s.lastInteraction uid 0).1.filter (fun e => !(e.1 == uid)) } := by
  have hcond : now - (agetd s.lastInteraction uid 0).2 > historyExpiry := by
    unfold agetd
    cases halt : alookup s.lastInteraction uid with
    | some ts => simpa [halt] using hstale
    | none => simpa [halt] using hstale
  have hl : (alookup (agetd s.lastInteraction uid 0).1 uid).isSome = true := by
    unfold agetd
    cases halt : alookup s.lastInteraction uid with
    | some ts => simp [halt]
    | none => simp [alookup_append_right halt 0]
  unfold pruneStep
  rw [if_pos hcond]
  simp only [adel_of_isSome hc, adel_of_isSome hf, adel_of_isSome him, adel_of_isSome hd,
    adel_of_isSome hl]
  rfl

/-- C10: the reset command overwrites the four context-map entries of a tenant
with empty values (the keys stay present) and does not touch the
last-interaction timestamp; consequently a history-status query right after a
reset answers with a message count of 0 (not the "no conversation history"
branch), and the next eviction sweep still removes the tenant at the time its
pre-reset timestamp dictates. -/
theorem c10_reset (s : CtxMaps) (uid : Nat) (now : Nat)
    (hstale : now - ((alookup s.lastInteraction uid).getD 0) > historyExpiry) :
    alookup (resetCmd s uid).conversations uid = some []
    ∧ alookup (resetCmd s uid).fileContexts uid = some ""
    ∧ alookup (resetCmd s uid).imageContexts uid = some []
    ∧ alookup (resetCmd s uid).imageDescriptions uid = some ""
    ∧ (resetCmd s uid).lastInteraction = s.lastInteraction
    ∧ (historyCmd (resetCmd s uid) uid).1 = .personal 0 false false
    ∧ ∃ s2, pruneStep now (resetCmd s uid) uid = .ok s2
        ∧ alookup s2.conversations uid = none
        ∧ alookup s2.fileContexts uid = none
        ∧ alookup s2.imageContexts uid = none
        ∧ alookup s2.imageDescriptions uid = none
        ∧ alookup s2.lastInteraction uid = none := by
  refine ⟨alookup_aset_self _ _ _, alookup_aset_self _ _ _, alookup_aset_self _ _ _,
    alookup_aset_self _ _ _, rfl, ?_, ?_⟩
  · unfold historyCmd resetCmd
    rw [alookup_aset_self]
    simp only [agetd_aset]
    rfl
  · refine ⟨_, @pruneStep_all_present now (resetCmd s uid) uid
      (by simp only [resetCmd]; rw [alookup_aset_self]; rfl)
      (by simp only [resetCmd]; rw [alookup_aset_self]; rfl)
      (by simp only [resetCmd]; rw [alookup_aset_self]; rfl)
      (by simp only [resetCmd]; rw [alookup_aset_self]; rfl) hstale,
      alookup_filter_self _ _, alookup_filter_self _ _, alookup_filter_self _ _,
      alookup_filter_self _ _, alookup_filter_self _ _⟩

/-- A concrete pre-reset state: user 1 has one conversation entry and a
timestamp of 5. -/
def c10State : CtxMaps :=
  { conversations := [(1, [{ role := "user", content := "hey" }])]
    fileContexts := [(1, "old")]
    imageContexts := []
    imageDescriptions := []
    lastInteraction := [(1, 5)] }

/-- Witness for C10 at the concrete state `c10State`, user 1, sweep time
100000 (more than 24 hours after timestamp 5). -/
theorem c10_reset_witness :
    alookup (resetCmd c10State 1).conversations 1 = some []
    ∧ alookup (resetCmd c10State 1).fileContexts 1 = some ""
    ∧ alookup (resetCmd c10State 1).imageContexts 1 = some []
    ∧ alookup (resetCmd c10State 1).imageDescriptions 1 = some ""
    ∧ (resetCmd c10State 1).lastInteraction = c10State.lastInteraction
    ∧ (historyCmd (resetCmd c10State 1) 1).1 = .personal 0 false false
    ∧ ∃ s2, pruneStep 100000 (resetCmd c10State 1) 1 = .ok s2
        ∧ alookup s2.conversations 1 = none
        ∧ alookup s2.fileContexts 1 = none
        ∧ alookup s2.imageContexts 1 = none
        ∧ alookup s2.imageDescriptions 1 = none
        ∧ alookup s2.lastInteraction 1 = none :=
  c10_reset c10State 1 100000 (by decide)

/-! ### Helper lemmas about the history window -/

theorem appendUserTurn_length_le (hist : List Entry) (content : String) :
    (appendUserTurn hist content).length ≤ 16 := by
  unfold appendUserTurn maxHistory
  dsimp only
  split
  · simp only [List.length_drop]
    omega
  · simp only [List.length_append, List.length_cons, List.length_nil] at *
    omega

theorem chatTurnHistory_length (hist : List Entry) (m r : String) :
    (chatTurnHistory hist m r).length = min (hist.length + 2) 17 := by
  unfold chatTurnHistory appendAssistantTurn appendUserTurn maxHistory
  dsimp only
  split
  · simp only [List.length_append, List.length_drop, List.length_cons, List.length_nil] at *
    omega
  · simp only [List.length_append, List.length_cons, List.length_nil] at *
    omega

theorem runTurns_length (turns : List (String × String)) (hist : List Entry)
    (hh : hist.length ≤ 17) :
    (runTurns turns hist).length = min (hist.length + 2 * turns.length) 17 := by
  induction turns generalizing hist with
  | nil =>
    simp only [runTurns, List.length_nil]
    omega
  | cons t rest ih =>
    rw [runTurns, ih _ (by rw [chatTurnHistory_length]; omega), chatTurnHistory_length]
    simp only [List.length_cons]
    omega

theorem suffix_append_same {α : Type} {l1 l2 : List α} (h : l1 <:+ l2) (t : List α) :
    l1 ++ t <:+ l2 ++ t := by
  obtain ⟨w, rfl⟩ := h
  exact ⟨w, (List.append_assoc w l1 t).symm⟩

theorem chatTurnHistory_suffix (hist : List Entry) (m r : String) :
    chatTurnHistory hist m r <:+
      hist ++ [{ role := "user", content := m }, { role := "assistant", content := r }] := by
  have hsplit :
      hist ++ [({ role := "user", content := m } : Entry), { role := "assistant", content := r }]
        = (hist ++ [{ role := "user", content := m }]) ++ [{ role := "assistant", content := r }] := by
    simp [List.append_assoc]
  rw [hsplit]
  unfold chatTurnHistory appendAssistantTurn appendUserTurn
  dsimp only
  split
  · exact suffix_append_same (List.drop_suffix _ _) _
  · exact List.suffix_refl _

theorem runTurns_suffix (turns : List (String × String)) (hist : List Entry) :
    runTurns turns hist <:+ hist ++ fullSeq turns := by
  induction turns generalizing hist with
  | nil =>
    rw [runTurns, fullSeq, List.append_nil]
  | cons t rest ih =>
    rw [runTurns, fullSeq]
    have h1 := ih (chatTurnHistory hist t.1 t.2)
    have h2 := suffix_append_same (chatTurnHistory_suffix hist t.1 t.2) (fullSeq rest)
    refine h1.trans (h2.trans ?_)
    rw [List.append_assoc]
    exact List.suffix_refl _

/-- C2 counterexample: ten completed turns append 20 entries to a fresh
conversation, yet the history afterwards holds 17 entries, not 16 — the
assistant-turn append of chat.py line 266 is not followed by a truncation, so
"after every append the history holds at most 16 entries" fails. -/
theorem c2_counterexample :
    (runTurns (List.replicate 10 ("m", "r")) []).length = 17
    ∧ ¬ (runTurns (List.replicate 10 ("m", "r")) []).length ≤ 16 := by
  decide

/-- C2 (amended): the sliding window is enforced only on the user-turn append
(the history holds at most 16 entries immediately after it, which is what the
model call ever sees); the assistant-turn append is unchecked, so after `n`
completed turns a fresh conversation holds `min (2 n) 17` entries — appending
20 entries as 10 turns leaves the most recent 17, not 16 — and the retained
entries are always a suffix (the most recent entries, in original order) of
the full append sequence. -/
theorem c2_amended (hist : List Entry) (content : String) (turns : List (String × String)) :
    (appendUserTurn hist content).length ≤ 16
    ∧ (runTurns turns []).length = min (2 * turns.length) 17
    ∧ runTurns turns [] <:+ fullSeq turns := by
  refine ⟨appendUserTurn_length_le hist content, ?_, ?_⟩
  · rw [runTurns_length turns [] (by simp)]
    simp
  · have h := runTurns_suffix turns []
    rwa [List.nil_append] at h

/-! ### Helper lemmas about context assembly -/

theorem sumLen_nil : sumLen [] = 0 := rfl

theorem sumLen_cons (x : String) (xs : List String) : sumLen (x :: xs) = x.length + sumLen xs := by
  simp [sumLen]

/-- The source loop equals its specification-side decomposition: dedup by
`(filename, page)` key first, then greedily take within the budget. -/
theorem assembleParts_eq (maxLen : Nat) (rs : List ChunkResult) (seen : List String) (cur : Nat) :
    assembleParts maxLen rs seen cur
      = (takeGreedy maxLen cur (dedupByKey rs seen)).map formatChunk := by
  induction rs generalizing seen cur with
  | nil => rfl
  | cons r rest ih =>
    simp only [assembleParts, dedupByKey]
    by_cases hk : pageKey r ∈ seen
    · rw [if_pos hk, if_pos hk, ih]
    · rw [if_neg hk, if_neg hk]
      simp only [takeGreedy]
      by_cases hlen : cur + (formatChunk r).length > maxLen
      · rw [if_pos hlen, if_pos hlen]
        rfl
      · rw [if_neg hlen, if_neg hlen, List.map_cons, ih]

theorem takeGreedy_bound (maxLen : Nat) (l : List ChunkResult) (cur : Nat) :
    cur + sumLen ((takeGreedy maxLen cur l).map formatChunk) ≤ maxLen
    ∨ takeGreedy maxLen cur l = [] := by
  induction l generalizing cur with
  | nil => exact Or.inr rfl
  | cons r rest ih =>
    by_cases hlen : cur + (formatChunk r).length > maxLen
    · right
      simp only [takeGreedy, if_pos hlen]
    · left
      simp only [takeGreedy, if_neg hlen, List.map_cons, sumLen_cons]
      rcases ih (cur + (formatChunk r).length) with h | h
      · omega
      · rw [h]
        simp only [List.map_nil, sumLen_nil]
        omega

theorem takeGreedy_eq_take (maxLen : Nat) (l : List ChunkResult) (cur : Nat) :
    ∃ n, n ≤ l.length ∧ takeGreedy maxLen cur l = l.take n
      ∧ ∀ r, l[n]? = some r →
          cur + sumLen ((takeGreedy maxLen cur l).map formatChunk) + (formatChunk r).length
            > maxLen := by
  induction l generalizing cur with
  | nil =>
    exact ⟨0, Nat.le_refl 0, rfl, fun r hr => by simp at hr⟩
  | cons r rest ih =>
    by_cases hlen : cur + (formatChunk r).length > maxLen
    · refine ⟨0, Nat.zero_le _, by simp [takeGreedy, hlen], ?_⟩
      intro r2 hr2
      rw [List.getElem?_cons_zero] at hr2
      cases hr2
      simp only [takeGreedy, if_pos hlen, List.map_nil, sumLen_nil]
      omega
    · obtain ⟨n, hn, heq, hbound⟩ := ih (cur + (formatChunk r).length)
      refine ⟨n + 1, by simpa using Nat.succ_le_succ hn, ?_, ?_⟩
      · simp only [takeGreedy, if_neg hlen, List.take_succ_cons, heq]
      · intro r2 hr2
        rw [List.getElem?_cons_succ] at hr2
        have hb := hbound r2 hr2
        simp only [takeGreedy, if_neg hlen, List.map_cons, sumLen_cons]
        omega

/-- C1 (amended): the budget bounds the total formatted length of the chunks
accumulated by `get_context_for_query` — those chunks are a greedy prefix of
the similarity-ordered, per-(filename, page)-deduplicated result list,
stopping at the first chunk that would overflow `maxLength` — but the
returned string is that accumulation wrapped in a fixed header and trailing
instruction, so the full returned string may exceed `maxLength` by the size
of that fixed wrapping (the third conjunct states the exact shape). -/
theorem c1_amended (avail : Bool) (store : List StoredPoint) (sim : StoredPoint → Int)
    (uid : Nat) (tid : Option Nat) (maxLen : Nat) :
    sumLen (assembleParts maxLen (query_documents avail store sim uid tid 15) [] 0) ≤ maxLen
    ∧ (∃ n, n ≤ (dedupByKey (query_documents avail store sim uid tid 15) []).length
        ∧ assembleParts maxLen (query_documents avail store sim uid tid 15) [] 0
            = ((dedupByKey (query_documents avail store sim uid tid 15) []).take n).map formatChunk
        ∧ ∀ r, (dedupByKey (query_documents avail store sim uid tid 15) [])[n]? = some r →
            sumLen (assembleParts maxLen (query_documents avail store sim uid tid 15) [] 0)
              + (formatChunk r).length > maxLen)
    ∧ get_context_for_query avail store sim uid tid maxLen
        = (if (assembleParts maxLen (query_documents avail store sim uid tid 15) [] 0).isEmpty
           then ""
           else ctxHeader
             ++ String.join (assembleParts maxLen (query_documents avail store sim uid tid 15) [] 0)
             ++ ctxFooter) := by
  refine ⟨?_, ?_, ?_⟩
  · rw [assembleParts_eq]
    rcases takeGreedy_bound maxLen (dedupByKey (query_documents avail store sim uid tid 15) []) 0
      with h | h
    · omega
    · rw [h]
      simp [sumLen_nil]
  · obtain ⟨n, hn, heq, hbound⟩ :=
      takeGreedy_eq_take maxLen (dedupByKey (query_documents avail store sim uid tid 15) []) 0
    refine ⟨n, hn, ?_, ?_⟩
    · rw [assembleParts_eq, heq]
    · intro r hr
      have hb := hbound r hr
      rw [assembleParts_eq]
      omega
  · simp only [get_context_for_query]
    cases avail
    · rfl
    · rw [if_neg (fun h => Bool.noConfusion h)]
      by_cases hres : (query_documents true store sim uid tid 15).isEmpty
      · rw [if_pos hres, List.isEmpty_iff.mp hres]
        rfl
      · rw [if_neg hres]

/-- A point of tenant `user_1` whose formatted chunk is 12 characters long. -/
def c1Point : StoredPoint :=
  { tenant_id := "user_1", filename := "f.txt", page_number := none, chunk_index := 0,
    content := "ab", user_id := 1, thread_id := none, timestamp := 0 }

set_option maxRecDepth 8192 in
/-- C1 counterexample: with `maxLength = 40` and a single stored chunk whose
formatted text (12 characters) fits the budget, the string returned by
`get_context_for_query` is 204 characters long — the fixed header and
trailing instruction push the returned context past `maxLength`, refuting
"the context string returned never exceeds maxLength characters". -/
theorem c1_counterexample :
    40 < (get_context_for_query true [c1Point] (fun _ => 0) 1 none 40).length := by
  decide

/-- Witness for C1 (amended) at the concrete store `[c1Point]`. -/
theorem c1_amended_witness :
    sumLen (assembleParts 40 (query_documents true [c1Point] (fun _ => 0) 1 none 15) [] 0) ≤ 40
    ∧ (∃ n, n ≤ (dedupByKey (query_documents true [c1Point] (fun _ => 0) 1 none 15) []).length
        ∧ assembleParts 40 (query_documents true [c1Point] (fun _ => 0) 1 none 15) [] 0
            = ((dedupByKey (query_documents true [c1Point] (fun _ => 0) 1 none 15) []).take n).map
                formatChunk
        ∧ ∀ r, (dedupByKey (query_documents true [c1Point] (fun _ => 0) 1 none 15) [])[n]? = some r →
            sumLen (assembleParts 40 (query_documents true [c1Point] (fun _ => 0) 1 none 15) [] 0)
              + (formatChunk r).length > 40)
    ∧ get_context_for_query true [c1Point] (fun _ => 0) 1 none 40
        = (if (assembleParts 40 (query_documents true [c1Point] (fun _ => 0) 1 none 15) [] 0).isEmpty
           then ""
           else ctxHeader
             ++ String.join (assembleParts 40 (query_documents true [c1Point] (fun _ => 0) 1 none 15) [] 0)
             ++ ctxFooter) :=
  c1_amended true [c1Point] (fun _ => 0) 1 none 40

/-! ### Helper lemmas about deduplication -/

theorem takeGreedy_subset {maxLen cur : Nat} {l : List ChunkResult} {c : ChunkResult}
    (hc : c ∈ takeGreedy maxLen cur l) : c ∈ l := by
  obtain ⟨n, _, heq, _⟩ := takeGreedy_eq_take maxLen l cur
  rw [heq] at hc
  exact List.mem_of_mem_take hc

theorem dedupByKey_mem {rs : List ChunkResult} {seen : List String} {c : ChunkResult}
    (hc : c ∈ dedupByKey rs seen) :
    pageKey c ∉ seen ∧ rs.find? (fun r => pageKey r == pageKey c) = some c := by
  induction rs generalizing seen with
  | nil => cases hc
  | cons r rest ih =>
    simp only [dedupByKey] at hc
    by_cases hk : pageKey r ∈ seen
    · rw [if_pos hk] at hc
      obtain ⟨hns, hfind⟩ := ih hc
      have hne : (pageKey r == pageKey c) = false := by
        simp only [beq_eq_false_iff_ne, ne_eq]
        intro he
        exact hns (he ▸ hk)
      exact ⟨hns, by rw [List.find?_cons_of_neg _ (by simp [hne]), hfind]⟩
    · rw [if_neg hk] at hc
      rcases List.mem_cons.mp hc with rfl | hc2
      · exact ⟨hk, by rw [List.find?_cons_of_pos _ (by simp)]⟩
      · obtain ⟨hns, hfind⟩ := ih hc2
        have hnr : pageKey c ≠ pageKey r := fun he => hns (by rw [he]; exact List.mem_cons_self _ _)
        refine ⟨fun hin => hns (List.mem_cons_of_mem _ hin), ?_⟩
        rw [List.find?_cons_of_neg _ (by simp only [beq_iff_eq]; exact fun he => hnr he.symm), hfind]

theorem dedupByKey_keys_nodup (rs : List ChunkResult) (seen : List String) :
    ((dedupByKey rs seen).map pageKey).Nodup
    ∧ ∀ k ∈ (dedupByKey rs seen).map pageKey, k ∉ seen := by
  induction rs generalizing seen with
  | nil => exact ⟨List.nodup_nil, by simp [dedupByKey]⟩
  | cons r rest ih =>
    simp only [dedupByKey]
    by_cases hk : pageKey r ∈ seen
    · rw [if_pos hk]
      exact ih seen
    · rw [if_neg hk]
      obtain ⟨hnd, hnotin⟩ := ih (pageKey r :: seen)
      constructor
      · rw [List.map_cons, List.nodup_cons]
        exact ⟨fun hmem => (hnotin _ hmem) (List.mem_cons_self _ _), hnd⟩
      · intro k hkmem
        rw [List.map_cons, List.mem_cons] at hkmem
        rcases hkmem with rfl | h2
        · exact hk
        · exact fun hin => (hnotin k h2) (List.mem_cons_of_mem _ hin)

theorem find?_first_of_pairwise {R : ChunkResult → ChunkResult → Prop}
    {p : ChunkResult → Bool} {l : List ChunkResult} {c : ChunkResult}
    (hpw : l.Pairwise R) (hfind : l.find? p = some c) :
    ∀ c2 ∈ l, p c2 = true → c2 = c ∨ R c c2 := by
  induction l with
  | nil => cases hfind
  | cons a rest ih =>
    rcases List.pairwise_cons.mp hpw with ⟨ha, hrest⟩
    by_cases hpa : p a = true
    · rw [List.find?_cons_of_pos _ hpa] at hfind
      injection hfind with hac
      subst hac
      intro c2 hc2 hp2
      rcases List.mem_cons.mp hc2 with rfl | h2
      · exact Or.inl rfl
      · exact Or.inr (ha c2 h2)
    · rw [List.find?_cons_of_neg _ hpa] at hfind
      intro c2 hc2 hp2
      rcases List.mem_cons.mp hc2 with rfl | h2
      · exact absurd hp2 hpa
      · exact ih hrest hfind c2 h2 hp2

/-- The results of `query_documents` come back in weakly descending score
order (the model sorts by the similarity the store would report). -/
theorem query_documents_pairwise (store : List StoredPoint) (sim : StoredPoint → Int)
    (uid : Nat) (tid : Option Nat) (limit : Nat) :
    (query_documents true store sim uid tid limit).Pairwise (fun a b => b.score ≤ a.score) := by
  unfold query_documents queryPoints
  rw [if_neg (fun h => Bool.noConfusion h)]
  rw [List.pairwise_map]
  refine List.Pairwise.sublist (List.take_sublist _ _) ?_
  exact List.sorted_insertionSort (simDesc sim)
    ((store.filter (fun p => p.tenant_id == _get_tenant_id uid tid)))

/-- The key of a `(filename, page)` pair as interpolated by the source. -/
def pairKey (fp : String × Option Nat) : String := fp.1 ++ "_" ++ pageStr fp.2

/-- C9: among the chunks `get_context_for_query` assembles (the greedy prefix
`takeGreedy` of the deduplicated results, which is exactly what the source
loop `assembleParts` formats — first conjunct), no two carry the same
`(filename, page)` pair; every included chunk is the *first* result carrying
its key in the walked order; and since the walked results are in descending
similarity order, the score of the included chunk is at least that of every
result sharing its `(filename, page)` key — the higher-similarity chunk wins. -/
theorem c9_dedup (store : List StoredPoint) (sim : StoredPoint → Int) (uid : Nat)
    (tid : Option Nat) (results : List ChunkResult) (maxLen : Nat)
    (hres : results = query_documents true store sim uid tid 15) :
    assembleParts maxLen results [] 0
        = (takeGreedy maxLen 0 (dedupByKey results [])).map formatChunk
    ∧ ((takeGreedy maxLen 0 (dedupByKey results [])).map
        (fun c => (c.filename, c.page_number))).Nodup
    ∧ (∀ c ∈ takeGreedy maxLen 0 (dedupByKey results []),
        results.find? (fun r => pageKey r == pageKey c) = some c)
    ∧ (∀ c ∈ takeGreedy maxLen 0 (dedupByKey results []), ∀ c2 ∈ results,
        pageKey c2 = pageKey c → c2.score ≤ c.score) := by
  have hfind : ∀ c ∈ takeGreedy maxLen 0 (dedupByKey results []),
      results.find? (fun r => pageKey r == pageKey c) = some c :=
    fun c hc => (dedupByKey_mem (takeGreedy_subset hc)).2
  refine ⟨assembleParts_eq maxLen results [] 0, ?_, hfind, ?_⟩
  · have hkeys : ((takeGreedy maxLen 0 (dedupByKey results [])).map pageKey).Nodup := by
      obtain ⟨n, _, heq, _⟩ := takeGreedy_eq_take maxLen (dedupByKey results []) 0
      rw [heq, List.map_take]
      exact ((dedupByKey_keys_nodup results []).1).sublist (List.take_sublist _ _)
    have hcomp : (takeGreedy maxLen 0 (dedupByKey results [])).map pageKey
        = ((takeGreedy maxLen 0 (dedupByKey results [])).map
            (fun c => (c.filename, c.page_number))).map pairKey := by
      rw [List.map_map]
      rfl
    rw [hcomp] at hkeys
    exact List.Nodup.of_map _ hkeys
  · intro c hc c2 hc2 hkey
    have hpw : results.Pairwise (fun a b => b.score ≤ a.score) := by
      rw [hres]
      exact query_documents_pairwise store sim uid tid 15
    have h2 : (fun r => pageKey r == pageKey c) c2 = true := by simp [hkey]
    rcases find?_first_of_pairwise hpw (hfind c hc) c2 hc2 h2 with rfl | hle
    · exact le_refl _
    · exact hle

/-- Three stored chunks of tenant `user_1`: two from page 1 of `d.pdf` (the
higher-similarity one first) and one from page 2. -/
def c9Store : List StoredPoint :=
  [{ tenant_id := "user_1", filename := "d.pdf", page_number := some 1, chunk_index := 0,
     content := "alpha", user_id := 1, thread_id := none, timestamp := 0 },
   { tenant_id := "user_1", filename := "d.pdf", page_number := some 1, chunk_index := 1,
     content := "beta", user_id := 1, thread_id := none, timestamp := 0 },
   { tenant_id := "user_1", filename := "d.pdf", page_number := some 2, chunk_index := 2,
     content := "gamma", user_id := 1, thread_id := none, timestamp := 0 }]

/-- Similarity for the C9 witness: earlier chunk index scores higher. -/
def c9Sim : StoredPoint → Int := fun p => 10 - (p.chunk_index : Int)

/-- Witness for C9 at the concrete store `c9Store` (two chunks share page 1). -/
theorem c9_dedup_witness :
    assembleParts 1000 (query_documents true c9Store c9Sim 1 none 15) [] 0
        = (takeGreedy 1000 0 (dedupByKey (query_documents true c9Store c9Sim 1 none 15) [])).map
            formatChunk
    ∧ ((takeGreedy 1000 0 (dedupByKey (query_documents true c9Store c9Sim 1 none 15) [])).map
        (fun c => (c.filename, c.page_number))).Nodup
    ∧ (∀ c ∈ takeGreedy 1000 0 (dedupByKey (query_documents true c9Store c9Sim 1 none 15) []),
        (query_documents true c9Store c9Sim 1 none 15).find?
            (fun r => pageKey r == pageKey c) = some c)
    ∧ (∀ c ∈ takeGreedy 1000 0 (dedupByKey (query_documents true c9Store c9Sim 1 none 15) []),
        ∀ c2 ∈ query_documents true c9Store c9Sim 1 none 15,
          pageKey c2 = pageKey c → c2.score ≤ c.score) :=
  c9_dedup c9Store c9Sim 1 none (query_documents true c9Store c9Sim 1 none 15) 1000 rfl

theorem mem_queryPoints_tenant {store : List StoredPoint} {tenant : String}
    {sim : StoredPoint → Int} {limit : Nat} {p : StoredPoint}
    (hp : p ∈ queryPoints store tenant sim limit) : p.tenant_id = tenant := by
  unfold queryPoints at hp
  have h1 := List.mem_of_mem_take hp
  rw [List.mem_insertionSort] at h1
  have h2 := (List.mem_filter.mp h1).2
  simpa only [beq_iff_eq] using h2

/-- C4: every point an ingestion stores carries the id of the ingesting
tenant in its payload; a query under a different tenant never selects any of those
points (the mandatory equality filter excludes them); and the query results,
the assembled context and the file listing of the other tenant are entirely
unchanged by the ingestion. -/
theorem c4_isolation (store : List StoredPoint) (sim : StoredPoint → Int) (att : FileAttachment)
    (u1 u2 : Nat) (t1 t2 : Option Nat) (now limit maxLen : Nat)
    (hne : _get_tenant_id u1 t1 ≠ _get_tenant_id u2 t2) :
    (∀ p ∈ (process_and_store_file true att u1 t1 now).2, p.tenant_id = _get_tenant_id u1 t1)
    ∧ (∀ p ∈ queryPoints (store ++ (process_and_store_file true att u1 t1 now).2)
          (_get_tenant_id u2 t2) sim limit,
        p ∉ (process_and_store_file true att u1 t1 now).2)
    ∧ query_documents true (store ++ (process_and_store_file true att u1 t1 now).2) sim u2 t2 limit
        = query_documents true store sim u2 t2 limit
    ∧ get_context_for_query true (store ++ (process_and_store_file true att u1 t1 now).2)
          sim u2 t2 maxLen
        = get_context_for_query true store sim u2 t2 maxLen
    ∧ list_stored_files true (store ++ (process_and_store_file true att u1 t1 now).2) u2 t2
        = list_stored_files true store u2 t2 := by
  have hall : ∀ p ∈ (process_and_store_file true att u1 t1 now).2,
      p.tenant_id = _get_tenant_id u1 t1 := fun _ hp => ingest_tenant hp
  have hnil : (process_and_store_file true att u1 t1 now).2.filter
      (fun p => p.tenant_id == _get_tenant_id u2 t2) = [] := filter_tenant_eq_nil hall hne
  have hfilter : (store ++ (process_and_store_file true att u1 t1 now).2).filter
        (fun p => p.tenant_id == _get_tenant_id u2 t2)
      = store.filter (fun p => p.tenant_id == _get_tenant_id u2 t2) := by
    rw [List.filter_append, hnil, List.append_nil]
  have hqp : ∀ lim : Nat, queryPoints (store ++ (process_and_store_file true att u1 t1 now).2)
        (_get_tenant_id u2 t2) sim lim = queryPoints store (_get_tenant_id u2 t2) sim lim := by
    intro lim
    unfold queryPoints
    rw [hfilter]
  have hqd : ∀ lim : Nat,
      query_documents true (store ++ (process_and_store_file true att u1 t1 now).2) sim u2 t2 lim
        = query_documents true store sim u2 t2 lim := by
    intro lim
    unfold query_documents
    rw [if_neg (fun h => Bool.noConfusion h), if_neg (fun h => Bool.noConfusion h), hqp lim]
  refine ⟨hall, ?_, hqd limit, ?_, ?_⟩
  · intro p hp hmem
    exact hne ((hall p hmem).symm.trans (mem_queryPoints_tenant hp))
  · simp only [get_context_for_query, hqd 15]
  · unfold list_stored_files scrollPoints
    rw [if_neg (fun h => Bool.noConfusion h), if_neg (fun h => Bool.noConfusion h), hfilter]

/-- A small well-formed text upload for the C4 witness. -/
def c4Att : FileAttachment := { filename := "doc.txt", size := 5, text := "hello", pages := [] }

/-- Witness for C4: user 1 ingests `c4Att` into an empty store; user 2 sees
nothing of it. -/
theorem c4_isolation_witness :
    (∀ p ∈ (process_and_store_file true c4Att 1 none 0).2, p.tenant_id = _get_tenant_id 1 none)
    ∧ (∀ p ∈ queryPoints ([] ++ (process_and_store_file true c4Att 1 none 0).2)
          (_get_tenant_id 2 none) (fun _ => 0) 5,
        p ∉ (process_and_store_file true c4Att 1 none 0).2)
    ∧ query_documents true ([] ++ (process_and_store_file true c4Att 1 none 0).2)
          (fun _ => 0) 2 none 5
        = query_documents true [] (fun _ => 0) 2 none 5
    ∧ get_context_for_query true ([] ++ (process_and_store_file true c4Att 1 none 0).2)
          (fun _ => 0) 2 none 100
        = get_context_for_query true [] (fun _ => 0) 2 none 100
    ∧ list_stored_files true ([] ++ (process_and_store_file true c4Att 1 none 0).2) 2 none
        = list_stored_files true [] 2 none :=
  c4_isolation [] (fun _ => 0) c4Att 1 2 none none 0 5 100 (by decide)
